import Mathlib

/-!
Verification of the AVG YouTube pipeline's research and script services
(`research_service.py`, `script_service.py`) against their specification.

The Python code is shallowly embedded: Python/JSON runtime values are
modelled by `JsonValue`, floats by `ℚ` (all arithmetic here is exact sums,
divisions and comparisons of small decimal values), fallible code by
`Except String` (the string names the Python exception class), and
`json.loads` by its outcome, an `Option JsonValue` (`none` models a
`json.JSONDecodeError`).  The dataclasses of `utils/models.py` are not part
of the sources; their fields are modelled from the spec's data-model
section, as noted on each structure.
-/

namespace AVG

/-- The universe of JSON values, as produced by `json.loads`.  An `obj`
models a Python dict with its (unique, insertion-ordered) keys. -/
inductive JsonValue where
  | null : JsonValue
  | bool (b : Bool) : JsonValue
  | num (q : ℚ) : JsonValue
  | str (s : String) : JsonValue
  | arr (xs : List JsonValue) : JsonValue
  | obj (fields : List (String × JsonValue)) : JsonValue

/-- Python `d.get(key, dflt)` on a dict `d` modelled as an association list with
unique keys (the first hit is the only hit). -/
def jsonGet (fields : List (String × JsonValue)) (key : String) (dflt : JsonValue) : JsonValue :=
  match fields.find? (fun kv => kv.1 == key) with
  | some kv => kv.2
  | none => dflt

/-- Python `d[key]` on a dict: a missing key raises `KeyError`. -/
def jsonIndex (fields : List (String × JsonValue)) (key : String) : Except String JsonValue :=
  match fields.find? (fun kv => kv.1 == key) with
  | some kv => .ok kv.2
  | none => .error "KeyError"

/-- Modelled from the spec: `Finding: {title, url, snippet, optional
full_content, relevance_score}` (the `ResearchFinding` dataclass lives in
`utils/models.py`, which is not among the sources). -/
structure ResearchFinding where
  title : String
  url : String
  snippet : String
  full_content : Option String := none
  relevance_score : ℚ
  deriving DecidableEq, Repr

/-- Modelled from the spec: `ResearchResult: {topic, query_used, ordered
sequence of Finding, key_facts, structured_summary, relevant_urls}`.  The
fields filled from `data.get(...)` hold whatever JSON value the dict held,
so they are `JsonValue`-typed. -/
structure ResearchResult where
  topic : String
  query_used : JsonValue
  findings : List ResearchFinding
  key_facts : JsonValue
  structured_summary : JsonValue
  relevant_urls : List String

/-- A raw provider search result (`SearchResult` in `providers.py`):
`{title, url, snippet, position}`, `position` being the provider's own
0-based rank. -/
structure SearchResult where
  title : String
  url : String
  snippet : String
  position : Nat := 0
  deriving DecidableEq, Repr

/-- The `ResearchFinding(...)` construction in `_search_cached`
(research_service.py line 76): `relevance_score = 1.0 - r.position * 0.1`. -/
def mkFinding (r : SearchResult) : ResearchFinding :=
  { title := r.title, url := r.url, snippet := r.snippet
    relevance_score := 1 - (r.position : ℚ) * (1 / 10) }

/-- The whole list comprehension of research_service.py lines 75-78. -/
def mkFindings (rs : List SearchResult) : List ResearchFinding :=
  rs.map mkFinding

/-- The loop `for r in results: if not isinstance(r, Exception): all_findings.extend(r)`
(research_service.py lines 43-45): the per-query result lists are merged in
query issue order, failed queries contributing nothing. -/
def mergeFindings (perQuery : List (Except String (List ResearchFinding))) :
    List ResearchFinding :=
  match perQuery with
  | [] => []
  | .ok fs :: rest => fs ++ mergeFindings rest
  | .error _ :: rest => mergeFindings rest

/-- The seen-set comprehension of research_service.py line 47:
`unique = [f for f in all_findings if not (f.url in seen or seen.add(f.url))]`. -/
def dedupAux (seen : List String) : List ResearchFinding → List ResearchFinding
  | [] => []
  | f :: fs =>
      if f.url ∈ seen then dedupAux seen fs
      else f :: dedupAux (f.url :: seen) fs

/-- Deduplication by url, first-seen wins (research_service.py lines 46-47). -/
def dedupByUrl (l : List ResearchFinding) : List ResearchFinding :=
  dedupAux [] l

/-- One step of a stable descending insertion: the incoming (later) element
goes after every already-placed element whose score is ≥ its own. -/
def insertDesc (a : ResearchFinding) : List ResearchFinding → List ResearchFinding
  | [] => [a]
  | b :: l =>
      if b.relevance_score < a.relevance_score then a :: b :: l
      else b :: insertDesc a l

/-- Embeds `sorted(unique, key=lambda x: x.relevance_score, reverse=True)`
(research_service.py line 49).  Python's `sorted` is specified as a stable
sort; it is embedded as a stable insertion sort processing the list in its
original order, which produces the same list: descending by score, ties in
original order. -/
def sortDesc (l : List ResearchFinding) : List ResearchFinding :=
  l.foldl (fun acc a => insertDesc a acc) []

/-- Embeds `sorted(...)[:top_n]` (research_service.py line 49): the selection of
the findings to fetch full content for. -/
def selectTop (l : List ResearchFinding) (top_n : Nat) : List ResearchFinding :=
  (sortDesc l).take top_n

/-- Embeds `_generate_queries` (research_service.py lines 54-67) after the LLM
call: the argument is the outcome of `json.loads` on the fence-stripped
response text (`none` = `json.JSONDecodeError`).  A decoded list is
truncated to 4 entries (`queries[:4]`, elements used as-is); decoded
non-list JSON yields `[topic]`; a decode error yields the three-query
fallback. -/
def _generate_queries (topic : String) (parsed : Option JsonValue) : List JsonValue :=
  match parsed with
  | none => [.str topic, .str (topic ++ " announcement"), .str (topic ++ " review")]
  | some (.arr xs) => xs.take 4
  | some _ => [.str topic]

/-- Python truthiness of `f.full_content` (research_service.py line 123):
`None` and the empty string are falsy. -/
def hasContent (f : ResearchFinding) : Bool :=
  match f.full_content with
  | none => false
  | some s => s ≠ ""

/-- Embeds `_extract_facts` (research_service.py lines 102-124) after the LLM
call: `parsed` is the outcome of `json.loads` on the fence-stripped
response.  A decode error is replaced by the fallback dict (snippets of the
first 8 findings, templated summary); `data.get(...)` on a non-dict value
raises `AttributeError`. -/
def _extract_facts (topic : String) (findings : List ResearchFinding)
    (parsed : Option JsonValue) : Except String ResearchResult :=
  let data : JsonValue :=
    match parsed with
    | some v => v
    | none =>
        .obj [("key_facts", .arr ((findings.take 8).map (fun f => .str f.snippet))),
              ("structured_summary", .str ("Research on: " ++ topic)),
              ("query_used", .str topic)]
  match data with
  | .obj fields =>
      .ok { topic := topic
            query_used := jsonGet fields "query_used" (.str topic)
            findings := findings
            key_facts := jsonGet fields "key_facts" (.arr [])
            structured_summary := jsonGet fields "structured_summary" (.str "")
            relevant_urls := (findings.filter hasContent).map (·.url) }
  | _ => .error "AttributeError"

/-- One `f.__dict__` serialized by `json.dumps` (research_service.py line 79).
All field values are JSON-serializable, so `default=str` never fires;
field order is the dataclass declaration order. -/
def findingToJson (f : ResearchFinding) : JsonValue :=
  .obj [("title", .str f.title), ("url", .str f.url), ("snippet", .str f.snippet),
        ("full_content", match f.full_content with | none => .null | some s => .str s),
        ("relevance_score", .num f.relevance_score)]

/-- Embeds `ResearchFinding(**f)` on one decoded cache entry (research_service.py
line 73).  The model's typed fields can only host values of the right
shape; any other shape maps to `none` (in Python such a call either raises
`TypeError` or builds an off-type record that no cache write of this
program produces). -/
def findingOfJson (v : JsonValue) : Option ResearchFinding :=
  match v with
  | .obj fields =>
      match fields.find? (fun kv => kv.1 == "title"),
            fields.find? (fun kv => kv.1 == "url"),
            fields.find? (fun kv => kv.1 == "snippet"),
            fields.find? (fun kv => kv.1 == "full_content"),
            fields.find? (fun kv => kv.1 == "relevance_score") with
      | some (_, .str t), some (_, .str u), some (_, .str sn), some (_, fc), some (_, .num sc) =>
          match fc with
          | .null => some { title := t, url := u, snippet := sn, full_content := none,
                            relevance_score := sc }
          | .str c => some { title := t, url := u, snippet := sn, full_content := some c,
                             relevance_score := sc }
          | _ => none
      | _, _, _, _, _ => none
  | _ => none

/-- The comprehension over the decoded entries: the first undecodable
entry aborts (raises). -/
def decodeList : List JsonValue → Option (List ResearchFinding)
  | [] => some []
  | v :: vs =>
      match findingOfJson v with
      | some f => (decodeList vs).map (fun fs => f :: fs)
      | none => none

/-- The comprehension `[ResearchFinding(**f) for f in json.loads(cache_path.read_text())]`
(research_service.py line 73): the cached value must be a JSON array whose
every entry decodes. -/
def decodeFindings (v : JsonValue) : Option (List ResearchFinding) :=
  match v with
  | .arr xs => decodeList xs
  | _ => none

/-- The research cache directory, one JSON artifact per key.  The md5
digest of research_service.py line 70 is modelled by the digested string
itself (`provider_name + ":" + query`), an injective stand-in. -/
structure CacheState where
  entries : List (String × JsonValue)

/-- Models `cache_path.exists()` and `cache_path.read_text()` combined. -/
def lookupCache (c : CacheState) (key : String) : Option JsonValue :=
  (c.entries.find? (fun kv => kv.1 == key)).map (·.2)

/-- Models `cache_path.write_text(...)`. -/
def writeCache (c : CacheState) (key : String) (v : JsonValue) : CacheState :=
  ⟨(key, v) :: c.entries⟩

def cacheKeyFor (provider query : String) : String :=
  provider ++ ":" ++ query

/-- Outcome of one `_search_cached` call: the returned findings (or the
exception), the cache directory afterwards, and whether the search
provider was invoked. -/
structure SearchOutcome where
  findings : Except String (List ResearchFinding)
  cache : CacheState
  providerCalled : Bool

/-- Embeds `_search_cached` (research_service.py lines 69-80).  `providerResults`
is what `self.cfg.search.search(...)` would return if invoked; on a cache
hit it is not consulted. -/
def _search_cached (c : CacheState) (provider query : String)
    (providerResults : List SearchResult) : SearchOutcome :=
  match lookupCache c (cacheKeyFor provider query) with
  | some v =>
      match decodeFindings v with
      | some fs => ⟨.ok fs, c, false⟩
      | none => ⟨.error "TypeError", c, false⟩
  | none =>
      let fs := mkFindings providerResults
      ⟨.ok fs, writeCache c (cacheKeyFor provider query) (.arr (fs.map findingToJson)), true⟩

/-! ### Script service: the regex layer of `_extract_markers`

The three patterns of script_service.py lines 114-119 are embedded as
character-list scanners.  Like `re`, a scanner tries a match at each
position from the left, emits non-overlapping matches, and resumes after
the matched span (or one character further on failure).  `\s` is the ASCII
whitespace class (the narrations at stake contain no exotic Unicode
whitespace). -/

def isSpaceChar (c : Char) : Bool :=
  c == ' ' || c == '\t' || c == '\n' || c == '\r' || c == '\x0b' || c == '\x0c'

/-- Python `str.strip()` on a character list. -/
def stripChars (l : List Char) : List Char :=
  ((l.dropWhile isSpaceChar).reverse.dropWhile isSpaceChar).reverse

/-- Match a literal: `dropLit pat l = some r` iff `l = pat ++ r`. -/
def dropLit : List Char → List Char → Option (List Char)
  | [], l => some l
  | _ :: _, [] => none
  | p :: ps, c :: cs => if p = c then dropLit ps cs else none

/-- Split at the first `']'`: the span before it (which contains no `']'`)
and the remainder after it.  `none` when there is no `']'` at all.  This is
how a greedy `[^\]]*` or `[^\]]+` followed by `\]` consumes input. -/
def splitAtRB : List Char → Option (List Char × List Char)
  | [] => none
  | c :: cs =>
      if c = ']' then some ([], cs)
      else match splitAtRB cs with
           | some (a, b) => some (c :: a, b)
           | none => none

/-- One attempted match of `\[SCREENSHOT:\s*(https?://[^\]]+)\]` at the
head of the input: on success, the captured group and the input after the
closing `]`.  The `\s*` never backtracks here because the capture must
start with `h`; `https?` needs no backtracking because the capture goes on
with `://`. -/
def matchScreenshot (l : List Char) : Option (List Char × List Char) :=
  match dropLit "[SCREENSHOT:".data l with
  | none => none
  | some r1 =>
      let r2 := r1.dropWhile isSpaceChar
      match dropLit "http".data r2 with
      | none => none
      | some r3 =>
          let pr : Bool × List Char :=
            match dropLit ['s'] r3 with
            | some r => (true, r)
            | none => (false, r3)
          match dropLit "://".data pr.2 with
          | none => none
          | some r4 =>
              match splitAtRB r4 with
              | some (span, rest) =>
                  if span.isEmpty then none
                  else some ((if pr.1 then "https://".data else "http://".data) ++ span, rest)
              | none => none

/-- One attempted match of `\[VISUAL:\s*([^\]]+)\]` at the head of the
input.  The returned span is the whole region between `:` and `]`; the
pattern matches exactly when that region is non-empty (with `\s*`
backtracking one character when the region is all whitespace), and since
the code applies `.strip()` to the capture, `stripChars span` equals the
stripped capture in every case. -/
def matchVisual (l : List Char) : Option (List Char × List Char) :=
  match dropLit "[VISUAL:".data l with
  | none => none
  | some r1 =>
      match splitAtRB r1 with
      | some (span, rest) => if span.isEmpty then none else some (span, rest)
      | none => none

/-- One attempted match of the stripping pattern
`\[(?:SCREENSHOT|VISUAL):[^\]]*\]` at the head of the input: the remainder
after the matched span.  The two literal branches are mutually exclusive. -/
def matchCueSpan (l : List Char) : Option (List Char) :=
  match dropLit "[SCREENSHOT:".data l with
  | some r1 => (splitAtRB r1).map (·.2)
  | none =>
      match dropLit "[VISUAL:".data l with
      | some r1 => (splitAtRB r1).map (·.2)
      | none => none

/-- Embeds `re.findall(r"\[SCREENSHOT:\s*(https?://[^\]]+)\]", ...)`, fuelled (the
fuel only needs to dominate the input length, see `scanScreens_fuel`). -/
def scanScreens : Nat → List Char → List (List Char)
  | 0, _ => []
  | _ + 1, [] => []
  | fuel + 1, c :: cs =>
      match matchScreenshot (c :: cs) with
      | some (cap, rest) => cap :: scanScreens fuel rest
      | none => scanScreens fuel cs

/-- Embeds `re.findall(r"\[VISUAL:\s*([^\]]+)\]", ...)`, fuelled. -/
def scanVisuals : Nat → List Char → List (List Char)
  | 0, _ => []
  | _ + 1, [] => []
  | fuel + 1, c :: cs =>
      match matchVisual (c :: cs) with
      | some (span, rest) => span :: scanVisuals fuel rest
      | none => scanVisuals fuel cs

/-- Embeds `re.sub(r"\[(?:SCREENSHOT|VISUAL):[^\]]*\]", "", ...)`, fuelled. -/
def scanStrip : Nat → List Char → List Char
  | 0, l => l
  | _ + 1, [] => []
  | fuel + 1, c :: cs =>
      match matchCueSpan (c :: cs) with
      | some rest => scanStrip fuel rest
      | none => c :: scanStrip fuel cs

def findScreenshots (l : List Char) : List (List Char) :=
  scanScreens l.length l

def findVisuals (l : List Char) : List (List Char) :=
  scanVisuals l.length l

def stripCues (l : List Char) : List Char :=
  scanStrip l.length l

/-- Embeds `re.sub(r"\s+", " ", ...)`: every maximal whitespace run becomes one
space. -/
def collapseWS : List Char → List Char
  | [] => []
  | [c] => if isSpaceChar c then [' '] else [c]
  | c :: d :: cs =>
      if isSpaceChar c && isSpaceChar d then collapseWS (d :: cs)
      else (if isSpaceChar c then ' ' else c) :: collapseWS (d :: cs)

/-- State machine behind `countWords`: `inWord` says whether the previous
character was a non-space. -/
def cwAux : Bool → List Char → Nat
  | _, [] => 0
  | inWord, c :: cs =>
      if isSpaceChar c then cwAux false cs
      else (if inWord then 0 else 1) + cwAux true cs

/-- Embeds `len(s.split())`: the number of maximal non-whitespace runs. -/
def countWords (l : List Char) : Nat :=
  cwAux false l

/-- Modelled from the spec: `VisualMarker: {marker_type ∈ {screenshot,
visual}, optional url, optional description, owning section_id}` (the
dataclass lives in `utils/models.py`, not among the sources).  The
`section_id` field hosts whatever value `raw["section_id"]` held, hence
`JsonValue`. -/
structure VisualMarker where
  marker_type : String
  url : Option String := none
  description : Option String := none
  section_id : JsonValue

/-- Modelled from the spec: `ScriptSection: {section_id, section_type,
title, narration_text (cue-free), ordered sequence of VisualMarker,
estimated_duration_seconds, estimated_start_time}`.  `section_id`,
`section_type` and `title` hold raw dict values, hence `JsonValue`; the
start-time field is named `start_time` as at the construction site
(script_service.py line 103). -/
structure ScriptSection where
  section_id : JsonValue
  section_type : JsonValue
  title : JsonValue
  narration_text : String
  visual_markers : List VisualMarker
  estimated_duration_seconds : ℚ
  start_time : ℚ

/-- Modelled from the spec: `VideoScript: {topic, title, ordered sequence
of ScriptSection, full_text, total_estimated_seconds}`. -/
structure VideoScript where
  topic : String
  title : JsonValue
  sections : List ScriptSection
  full_text : String
  total_estimated_seconds : ℚ

/-- Embeds `_extract_markers` (script_service.py lines 113-120): all SCREENSHOT
markers (url stripped), then all VISUAL markers (description stripped),
then the cue-stripped, whitespace-collapsed, trimmed clean text. -/
def _extract_markers (narration : List Char) (section_id : JsonValue) :
    List VisualMarker × List Char :=
  let markers :=
    (findScreenshots narration).map (fun url =>
      { marker_type := "screenshot", url := some (stripChars url).asString
        section_id := section_id : VisualMarker }) ++
    (findVisuals narration).map (fun desc =>
      { marker_type := "visual", description := some (stripChars desc).asString
        section_id := section_id : VisualMarker })
  (markers, stripChars (collapseWS (stripCues narration)))

/-- The loop body chain of `_parse` (script_service.py lines 88-105),
processing the raw section dicts in order and threading the running start
time `t`.  Per iteration: `raw` must be a dict (`raw.get` otherwise raises
`AttributeError`); `narration = raw.get("narration_text", "")` must be a
string (`re.findall` otherwise raises `TypeError`); `raw["section_id"]`
raises `KeyError` when missing — which makes the
`raw.get("section_id", f"s...")` default on line 99 unreachable. -/
def parseSections (wpm : ℚ) (t : ℚ) : List JsonValue → Except String (List ScriptSection × ℚ)
  | [] => .ok ([], t)
  | raw :: rest =>
      match raw with
      | .obj fields =>
          match jsonGet fields "narration_text" (.str "") with
          | .str narration =>
              match jsonIndex fields "section_id" with
              | .ok sid =>
                  let mc := _extract_markers narration.data sid
                  let dur : ℚ := ((countWords mc.2 : ℚ) / wpm) * 60
                  let s : ScriptSection :=
                    { section_id := sid
                      section_type := jsonGet fields "section_type" (.str "main")
                      title := jsonGet fields "title" (.str "")
                      narration_text := mc.2.asString
                      visual_markers := mc.1
                      estimated_duration_seconds := dur
                      start_time := t }
                  match parseSections wpm (t + dur) rest with
                  | .ok (ss, total) => .ok (s :: ss, total)
                  | .error e => .error e
              | .error e => .error e
          | _ => .error "TypeError"
      | _ => .error "AttributeError"

/-- Embeds `_parse` (script_service.py lines 88-110).  `data` must be a dict
(`data.get` otherwise raises) and `data.get("sections", [])` must be a
list (iterating anything the LLM could put there otherwise raises before
the first section is built). -/
def _parse (wpm : ℚ) (topic : String) (data : JsonValue) : Except String VideoScript :=
  match data with
  | .obj fields =>
      match jsonGet fields "sections" (.arr []) with
      | .arr raws =>
          match parseSections wpm 0 raws with
          | .ok (sections, t) =>
              .ok { topic := topic
                    title := jsonGet fields "title" (.str topic)
                    sections := sections
                    full_text := String.intercalate "\n\n" (sections.map (·.narration_text))
                    total_estimated_seconds := t }
          | .error e => .error e
      | _ => .error "TypeError"
  | _ => .error "AttributeError"

/-- Modelled from the spec's words, for comparison with the code's
`_extract_markers`: "order within a section is the order of appearance in
narration text" — a single left-to-right scan that emits each cue marker
where it matches, interleaving the two kinds (at no position can both cue
patterns match, their literal heads differing at the second character). -/
def scanMarkersInOrder (section_id : JsonValue) : Nat → List Char → List VisualMarker
  | 0, _ => []
  | _ + 1, [] => []
  | fuel + 1, c :: cs =>
      match matchScreenshot (c :: cs) with
      | some (cap, rest) =>
          { marker_type := "screenshot", url := some (stripChars cap).asString
            section_id := section_id : VisualMarker } :: scanMarkersInOrder section_id fuel rest
      | none =>
          match matchVisual (c :: cs) with
          | some (span, rest) =>
              { marker_type := "visual", description := some (stripChars span).asString
                section_id := section_id : VisualMarker } :: scanMarkersInOrder section_id fuel rest
          | none => scanMarkersInOrder section_id fuel cs

/-- The marker list in order of appearance, as the spec describes it. -/
def markersInAppearanceOrder (narration : List Char) (section_id : JsonValue) :
    List VisualMarker :=
  scanMarkersInOrder section_id narration.length narration

/-- A well-formed visual cue, used to state what `_extract_markers` does on
narrations that interleave the two cue grammars: a screenshot cue
`[SCREENSHOT:<ws>http(s)://<span>]` or a visual cue `[VISUAL:<span>]`. -/
inductive CueSpec where
  | shot (secure : Bool) (ws span : List Char)
  | vis (span : List Char)

/-- The protocol part of a screenshot cue's url. -/
def protoChars (secure : Bool) : List Char :=
  if secure then "https://".data else "http://".data

/-- The cue as it occurs in the narration text. -/
def CueSpec.render : CueSpec → List Char
  | .shot secure ws span => "[SCREENSHOT:".data ++ ws ++ protoChars secure ++ span ++ [']']
  | .vis span => "[VISUAL:".data ++ span ++ [']']

/-- Well-formedness: the gap is whitespace, the span is non-empty and
contains neither `]` (which would end the cue early) nor `[` (which could
start a spurious cue inside this one). -/
def CueSpec.wf : CueSpec → Prop
  | .shot _ ws span =>
      (∀ c ∈ ws, isSpaceChar c = true) ∧ span ≠ [] ∧ ∀ c ∈ span, c ≠ ']' ∧ c ≠ '['
  | .vis span => span ≠ [] ∧ ∀ c ∈ span, c ≠ ']' ∧ c ≠ '['

/-- A narration interleaving plain text and cues: `t₀ cue₀ t₁ cue₁ … tail`. -/
def renderParts : List (List Char × CueSpec) → List Char → List Char
  | [], tail => tail
  | (t, cue) :: ps, tail => t ++ cue.render ++ renderParts ps tail

/-- The non-cue content of such a narration, in order. -/
def cueTexts : List (List Char × CueSpec) → List Char → List Char
  | [], tail => tail
  | (t, _) :: ps, tail => t ++ cueTexts ps tail

instance (c : CueSpec) : Decidable c.wf := by
  cases c <;> simp only [CueSpec.wf] <;> infer_instance

/-- Well-formed interleaving: every cue is well-formed and the plain-text
pieces contain no `[` (no spurious cue heads). -/
def PartsWF (parts : List (List Char × CueSpec)) (tail : List Char) : Prop :=
  (∀ p ∈ parts, (∀ c ∈ p.1, c ≠ '[') ∧ p.2.wf) ∧ ∀ c ∈ tail, c ≠ '['

instance (parts : List (List Char × CueSpec)) (tail : List Char) :
    Decidable (PartsWF parts tail) := by
  unfold PartsWF
  infer_instance

/-- The counterexample narration `"[VISUAL: a] text [SCREENSHOT: http://b]"`
as a well-formed interleaving: a visual cue, then text, then a screenshot
cue. -/
def demoParts : List (List Char × CueSpec) :=
  [(([] : List Char), CueSpec.vis " a".data),
   (" text ".data, CueSpec.shot false " ".data "b".data)]

/-- The capture the screenshot regex records for a screenshot cue (`none`
for a visual cue). -/
def CueSpec.shotCapture : CueSpec → Option (List Char)
  | .shot secure _ span => some (protoChars secure ++ span)
  | .vis _ => none

/-- The span the visual regex records for a visual cue (`none` for a
screenshot cue). -/
def CueSpec.visSpan : CueSpec → Option (List Char)
  | .shot _ _ _ => none
  | .vis span => some span

/-- The parse step of `generate_script` (script_service.py lines 85-87):
`data = json.loads(raw)` is **not** wrapped in any `try`, so an unparsable
LLM response (`parsed = none`) raises `json.JSONDecodeError` out of the
method; only a successfully decoded value reaches `_parse`. -/
def generate_script (wpm : ℚ) (topic : String) (parsed : Option JsonValue) :
    Except String VideoScript :=
  match parsed with
  | none => .error "JSONDecodeError"
  | some data => _parse wpm topic data

/-! ### Concrete demonstration input

The spec's own scenario: one section whose narration interleaves a
screenshot cue and a visual cue, at 150 words per minute.  The expected
script is spelled out for use as a concrete evaluation of `_parse` (its
rational fields are stated as the expressions the code computes; their
decimal values are established in the witnesses). -/

def demoNarr : String :=
  "Intro text [SCREENSHOT: https://a.example/1] more text [VISUAL: chart of growth]"

def demoSectionsJson : JsonValue :=
  .obj [("sections", .arr [.obj [("section_id", .str "intro"),
    ("narration_text", .str demoNarr)]])]

def demoClean : List Char := stripChars (collapseWS (stripCues demoNarr.data))

def demoDur : ℚ := ((countWords demoClean : ℚ) / 150) * 60

def demoScript : VideoScript :=
  { topic := "t"
    title := .str "t"
    sections := [
      { section_id := .str "intro"
        section_type := .str "main"
        title := .str ""
        narration_text := demoClean.asString
        visual_markers := [
          { marker_type := "screenshot", url := some "https://a.example/1"
            section_id := .str "intro" },
          { marker_type := "visual", description := some "chart of growth"
            section_id := .str "intro" }]
        estimated_duration_seconds := demoDur
        start_time := 0 }]
    full_text := String.intercalate "\n\n" [demoClean.asString]
    total_estimated_seconds := 0 + demoDur }

/-! ## Deduplication (claim C1) -/

theorem dedupAux_sublist (l : List ResearchFinding) :
    ∀ seen, List.Sublist (dedupAux seen l) l := by
  induction l with
  | nil => intro seen; simp [dedupAux]
  | cons f fs ih =>
      intro seen
      by_cases hf : f.url ∈ seen
      · simp only [dedupAux, if_pos hf]
        exact (ih seen).cons f
      · simp only [dedupAux, if_neg hf]
        exact (ih (f.url :: seen)).cons₂ f

theorem dedupAux_filter (u : String) (l : List ResearchFinding) :
    ∀ seen, (dedupAux seen l).filter (fun f => f.url == u) =
      if u ∈ seen then [] else (l.filter (fun f => f.url == u)).take 1 := by
  induction l with
  | nil => intro seen; simp [dedupAux]
  | cons f fs ih =>
      intro seen
      by_cases hf : f.url ∈ seen
      · simp only [dedupAux, if_pos hf]
        rw [ih seen]
        by_cases hu : u ∈ seen
        · simp [hu]
        · have hne : ¬ (f.url == u) = true := by
            simp only [beq_iff_eq]
            intro hh; exact hu (hh ▸ hf)
          simp [hu, List.filter_cons, hne]
      · simp only [dedupAux, if_neg hf]
        by_cases hequ : f.url = u
        · subst hequ
          rw [List.filter_cons]
          simp only [beq_self_eq_true, if_pos]
          rw [ih (f.url :: seen)]
          simp [hf, List.filter_cons]
        · have hne : ¬ (f.url == u) = true := by simp [beq_iff_eq, hequ]
          rw [List.filter_cons]
          simp only [hne, Bool.false_eq_true, if_false]
          rw [ih (f.url :: seen)]
          by_cases hu : u ∈ seen
          · simp [hu, List.mem_cons]
          · have : ¬ u ∈ f.url :: seen := by
              simp only [List.mem_cons]
              rintro (h | h)
              · exact hequ h.symm
              · exact hu h
            simp [this, hu, List.filter_cons, hne]

theorem dedupAux_nodup (l : List ResearchFinding) :
    ∀ seen, ((dedupAux seen l).map (·.url)).Nodup ∧
      ∀ f ∈ dedupAux seen l, f.url ∉ seen := by
  induction l with
  | nil => intro seen; simp [dedupAux]
  | cons f fs ih =>
      intro seen
      by_cases hf : f.url ∈ seen
      · simpa only [dedupAux, if_pos hf] using ih seen
      · simp only [dedupAux, if_neg hf]
        obtain ⟨hnd, hout⟩ := ih (f.url :: seen)
        refine ⟨?_, ?_⟩
        · simp only [List.map_cons, List.nodup_cons]
          refine ⟨?_, hnd⟩
          intro hmem
          obtain ⟨g, hg, hgu⟩ := List.mem_map.mp hmem
          exact hout g hg (hgu ▸ List.mem_cons_self _ _)
        · intro g hg
          rcases List.mem_cons.mp hg with h | h
          · exact h ▸ hf
          · intro hmem
            exact hout g h (List.mem_cons_of_mem _ hmem)

/-- C1: across the merged per-query results (in query issue order), the
deduplicated list produced by `research` keeps, for every url, exactly the
first-encountered Finding with that url, discarding later duplicates
(whatever their scores) while preserving merge order. -/
theorem research_dedup_first_wins (perQuery : List (Except String (List ResearchFinding))) :
    List.Sublist (dedupByUrl (mergeFindings perQuery)) (mergeFindings perQuery) ∧
    ((dedupByUrl (mergeFindings perQuery)).map (·.url)).Nodup ∧
    ∀ u : String,
      (dedupByUrl (mergeFindings perQuery)).filter (fun f => f.url == u) =
        ((mergeFindings perQuery).filter (fun f => f.url == u)).take 1 := by
  refine ⟨dedupAux_sublist _ [], (dedupAux_nodup _ []).1, ?_⟩
  intro u
  simpa using dedupAux_filter u (mergeFindings perQuery) []

/-! ## Query generation fallback (claim C6) -/

/-- C6 counterexample: on a response that decodes to JSON that is not a
list (here the JSON string `"hello"`), `_generate_queries` returns the
single-element list `[topic]`, not the three-query fallback the claim
asserts. -/
theorem generate_queries_nonlist_counterexample :
    _generate_queries "OpenAI" (some (.str "hello")) = [.str "OpenAI"] ∧
    _generate_queries "OpenAI" (some (.str "hello")) ≠
      [.str "OpenAI", .str "OpenAI announcement", .str "OpenAI review"] := by
  refine ⟨rfl, ?_⟩
  intro h
  rw [show _generate_queries "OpenAI" (some (.str "hello")) = [.str "OpenAI"] from rfl] at h
  simp at h

/-- C6 amended: only a JSON *decode error* triggers the three-query
fallback `[topic, topic ++ " announcement", topic ++ " review"]`; a decoded
list is truncated to its first 4 entries; JSON that decodes to a non-list
yields the single query `[topic]`.  In every case at most 4 queries come
out. -/
theorem generate_queries_fallback (topic : String) :
    (_generate_queries topic none =
      [.str topic, .str (topic ++ " announcement"), .str (topic ++ " review")]) ∧
    (∀ xs : List JsonValue, _generate_queries topic (some (.arr xs)) = xs.take 4) ∧
    (∀ v : JsonValue, (∀ xs, v ≠ .arr xs) →
      _generate_queries topic (some v) = [.str topic]) ∧
    (∀ parsed, (_generate_queries topic parsed).length ≤ 4) := by
  refine ⟨rfl, fun xs => rfl, ?_, ?_⟩
  · intro v hv
    cases v with
    | arr xs => exact absurd rfl (hv xs)
    | null => rfl
    | bool b => rfl
    | num q => rfl
    | str s => rfl
    | obj fields => rfl
  · intro parsed
    match parsed with
    | none => simp [_generate_queries]
    | some (.arr xs) =>
        simp only [_generate_queries]
        exact List.length_take_le 4 xs
    | some .null => simp [_generate_queries]
    | some (.bool b) => simp [_generate_queries]
    | some (.num q) => simp [_generate_queries]
    | some (.str s) => simp [_generate_queries]
    | some (.obj fields) => simp [_generate_queries]

theorem generate_queries_fallback_witness :
    (∀ xs, JsonValue.str "hello" ≠ JsonValue.arr xs) ∧
    _generate_queries "OpenAI" (some (.str "hello")) = [.str "OpenAI"] :=
  ⟨fun _ h => JsonValue.noConfusion h,
   (generate_queries_fallback "OpenAI").2.2.1 (.str "hello") (fun _ h => JsonValue.noConfusion h)⟩

/-! ## Relevance score formula (claim C9) -/

/-- C9: a fresh Finding's score is `1 - position * 0.1`, so scores strictly
decrease in the provider's 0-based rank and any rank ≥ 10 scores ≤ 0. -/
theorem finding_score_formula (r r2 : SearchResult) :
    (mkFinding r).relevance_score = 1 - (r.position : ℚ) * (1 / 10) ∧
    (r.position < r2.position →
      (mkFinding r2).relevance_score < (mkFinding r).relevance_score) ∧
    (10 ≤ r.position → (mkFinding r).relevance_score ≤ 0) := by
  refine ⟨rfl, ?_, ?_⟩
  · intro h
    have h' : (r.position : ℚ) < (r2.position : ℚ) := by exact_mod_cast h
    simp only [mkFinding]
    linarith
  · intro h
    have h' : (10 : ℚ) ≤ (r.position : ℚ) := by exact_mod_cast h
    simp only [mkFinding]
    linarith

theorem finding_score_formula_witness :
    (⟨"a", "u1", "s", 3⟩ : SearchResult).position < (⟨"b", "u2", "s", 10⟩ : SearchResult).position ∧
    10 ≤ (⟨"b", "u2", "s", 10⟩ : SearchResult).position ∧
    (mkFinding ⟨"b", "u2", "s", 10⟩).relevance_score < (mkFinding ⟨"a", "u1", "s", 3⟩).relevance_score ∧
    (mkFinding ⟨"b", "u2", "s", 10⟩).relevance_score ≤ 0 :=
  ⟨by decide, by decide,
   (finding_score_formula ⟨"a", "u1", "s", 3⟩ ⟨"b", "u2", "s", 10⟩).2.1 (by decide),
   (finding_score_formula ⟨"b", "u2", "s", 10⟩ ⟨"a", "u1", "s", 3⟩).2.2 (by decide)⟩

/-! ## Unparsable LLM output (claim C3) -/

/-- C3 counterexample: an unparsable completion (`none` is the outcome of
`json.loads` on non-JSON text) makes `generate_script` raise
`json.JSONDecodeError` — script_service.py line 86 wraps `json.loads` in no
`try`, so the parse failure propagates out of script generation. -/
theorem generate_script_raises_counterexample :
    generate_script 150 "AI news" none = .error "JSONDecodeError" := rfl

/-- C3 amended: query generation and fact extraction recover from
unparsable LLM output locally via deterministic fallbacks and never raise,
but script generation does not — there the parse failure propagates to the
caller. -/
theorem llm_parse_fallback (topic : String) (findings : List ResearchFinding) (wpm : ℚ) :
    (_generate_queries topic none =
      [.str topic, .str (topic ++ " announcement"), .str (topic ++ " review")]) ∧
    (∃ r : ResearchResult, _extract_facts topic findings none = .ok r) ∧
    generate_script wpm topic none = .error "JSONDecodeError" :=
  ⟨rfl, ⟨_, rfl⟩, rfl⟩

/-! ## Fact extraction result (claim C8) -/

/-- C8 counterexample: a fact-extraction response that *does* parse as JSON
but is not an object (here the JSON array `[]`) makes `_extract_facts`
raise `AttributeError` (`data.get` on a list), so this research run fails
at this step and returns no `ResearchResult` at all, despite a collected
finding. -/
theorem extract_facts_nondict_counterexample :
    _extract_facts "Quantum" [⟨"t", "http://u", "snip", none, 1⟩] (some (.arr [])) =
      .error "AttributeError" := rfl

/-- C8 amended: when the fact-extraction response is unparsable JSON, the
result is the deterministic fallback — all collected findings, the first 8
findings' snippets as `key_facts` and a templated summary; when it parses
as a JSON object the result likewise carries every collected finding.  But
a response parsing as non-object JSON raises `AttributeError` instead of
returning a result. -/
theorem extract_facts_preserves_findings (topic : String) (findings : List ResearchFinding) :
    (_extract_facts topic findings none =
      .ok { topic := topic
            query_used := .str topic
            findings := findings
            key_facts := .arr ((findings.take 8).map (fun f => .str f.snippet))
            structured_summary := .str ("Research on: " ++ topic)
            relevant_urls := (findings.filter hasContent).map (·.url) }) ∧
    (∀ fields r, _extract_facts topic findings (some (.obj fields)) = .ok r →
      r.findings = findings) ∧
    (∀ v : JsonValue, (∀ fields, v ≠ .obj fields) →
      _extract_facts topic findings (some v) = .error "AttributeError") := by
  refine ⟨rfl, ?_, ?_⟩
  · intro fields r h
    cases h
    rfl
  · intro v hv
    cases v with
    | obj fields => exact absurd rfl (hv fields)
    | null => rfl
    | bool b => rfl
    | num q => rfl
    | str s => rfl
    | arr xs => rfl

theorem extract_facts_preserves_findings_witness :
    _extract_facts "t" [⟨"a", "http://u", "sn", none, 1⟩] (some (.obj [])) =
      .ok { topic := "t", query_used := .str "t",
            findings := [⟨"a", "http://u", "sn", none, 1⟩],
            key_facts := .arr [], structured_summary := .str "",
            relevant_urls := [] } ∧
    ({ topic := "t", query_used := .str "t",
       findings := [⟨"a", "http://u", "sn", none, 1⟩],
       key_facts := .arr [], structured_summary := .str "",
       relevant_urls := [] } : ResearchResult).findings = [⟨"a", "http://u", "sn", none, 1⟩] :=
  ⟨rfl,
   (extract_facts_preserves_findings "t" [⟨"a", "http://u", "sn", none, 1⟩]).2.1 [] _ rfl⟩

/-! ## Ranking (claim C7) -/

theorem insertDesc_mem (a x : ResearchFinding) (l : List ResearchFinding) :
    x ∈ insertDesc a l ↔ x = a ∨ x ∈ l := by
  induction l with
  | nil => simp [insertDesc]
  | cons b bs ih =>
      by_cases hb : b.relevance_score < a.relevance_score
      · simp only [insertDesc, if_pos hb, List.mem_cons]
      · simp only [insertDesc, if_neg hb, List.mem_cons, ih]
        tauto

theorem insertDesc_pairwise (a : ResearchFinding) (l : List ResearchFinding)
    (h : l.Pairwise (fun x y => y.relevance_score ≤ x.relevance_score)) :
    (insertDesc a l).Pairwise (fun x y => y.relevance_score ≤ x.relevance_score) := by
  induction l with
  | nil => simp [insertDesc]
  | cons b bs ih =>
      rw [List.pairwise_cons] at h
      obtain ⟨hb, hbs⟩ := h
      by_cases hba : b.relevance_score < a.relevance_score
      · rw [insertDesc, if_pos hba, List.pairwise_cons]
        refine ⟨?_, ?_⟩
        · intro x hx
          rcases List.mem_cons.mp hx with rfl | hx
          · exact le_of_lt hba
          · exact le_trans (hb x hx) (le_of_lt hba)
        · rw [List.pairwise_cons]
          exact ⟨hb, hbs⟩
      · rw [insertDesc, if_neg hba, List.pairwise_cons]
        refine ⟨?_, ih hbs⟩
        intro x hx
        rcases (insertDesc_mem a x bs).mp hx with rfl | hx
        · exact le_of_not_lt hba
        · exact hb x hx

theorem insertDesc_perm (a : ResearchFinding) (l : List ResearchFinding) :
    List.Perm (insertDesc a l) (a :: l) := by
  induction l with
  | nil => simp [insertDesc]
  | cons b bs ih =>
      by_cases hb : b.relevance_score < a.relevance_score
      · simp [insertDesc, hb]
      · rw [insertDesc, if_neg hb]
        exact (ih.cons b).trans (List.Perm.swap a b bs)

theorem insertDesc_filter_ne (a : ResearchFinding) (l : List ResearchFinding) (s : ℚ)
    (hne : a.relevance_score ≠ s) :
    (insertDesc a l).filter (fun f => f.relevance_score == s) =
      l.filter (fun f => f.relevance_score == s) := by
  have ha : ¬ (a.relevance_score == s) = true := by simp [beq_iff_eq, hne]
  induction l with
  | nil => simp [insertDesc, List.filter_cons, ha]
  | cons b bs ih =>
      by_cases hb : b.relevance_score < a.relevance_score
      · rw [insertDesc, if_pos hb, List.filter_cons, List.filter_cons]
        simp only [ha, Bool.false_eq_true, if_false]
      · rw [insertDesc, if_neg hb, List.filter_cons, List.filter_cons]
        rw [ih]

theorem insertDesc_filter_self (a : ResearchFinding) (l : List ResearchFinding)
    (h : l.Pairwise (fun x y => y.relevance_score ≤ x.relevance_score)) :
    (insertDesc a l).filter (fun f => f.relevance_score == a.relevance_score) =
      l.filter (fun f => f.relevance_score == a.relevance_score) ++ [a] := by
  induction l with
  | nil => simp [insertDesc, List.filter_cons]
  | cons b bs ih =>
      rw [List.pairwise_cons] at h
      obtain ⟨hb, hbs⟩ := h
      by_cases hba : b.relevance_score < a.relevance_score
      · rw [insertDesc, if_pos hba]
        have hall : (b :: bs).filter (fun f => f.relevance_score == a.relevance_score) = [] := by
          rw [List.filter_eq_nil_iff]
          intro x hx
          simp only [beq_iff_eq]
          rcases List.mem_cons.mp hx with rfl | hx
          · exact ne_of_lt hba
          · exact ne_of_lt (lt_of_le_of_lt (hb x hx) hba)
        rw [List.filter_cons, hall]
        simp
      · rw [insertDesc, if_neg hba, List.filter_cons, List.filter_cons]
        by_cases hbeq : (b.relevance_score == a.relevance_score) = true
        · simp only [hbeq, if_pos]
          rw [ih hbs, List.cons_append]
        · simp only [hbeq, Bool.false_eq_true, if_false]
          exact ih hbs

theorem sortDesc_foldl_aux (l : List ResearchFinding) :
    ∀ acc, acc.Pairwise (fun x y => y.relevance_score ≤ x.relevance_score) →
      (l.foldl (fun acc a => insertDesc a acc) acc).Pairwise
        (fun x y => y.relevance_score ≤ x.relevance_score) ∧
      List.Perm (l.foldl (fun acc a => insertDesc a acc) acc) (acc ++ l) ∧
      ∀ s : ℚ, (l.foldl (fun acc a => insertDesc a acc) acc).filter
          (fun f => f.relevance_score == s) =
        acc.filter (fun f => f.relevance_score == s) ++
          l.filter (fun f => f.relevance_score == s) := by
  induction l with
  | nil =>
      intro acc hacc
      refine ⟨hacc, by simp, fun s => by simp⟩
  | cons a l ih =>
      intro acc hacc
      obtain ⟨hp, hperm, hfil⟩ := ih (insertDesc a acc) (insertDesc_pairwise a acc hacc)
      simp only [List.foldl_cons]
      refine ⟨hp, ?_, ?_⟩
      · exact hperm.trans
          (((insertDesc_perm a acc).append_right l).trans List.perm_middle.symm)
      · intro s
        rw [hfil s]
        by_cases hs : a.relevance_score = s
        · subst hs
          rw [insertDesc_filter_self a acc hacc, List.filter_cons]
          simp only [beq_self_eq_true, if_pos, List.append_assoc, List.singleton_append]
        · rw [insertDesc_filter_ne a acc s hs, List.filter_cons]
          have hne : ¬ (a.relevance_score == s) = true := by simp [beq_iff_eq, hs]
          simp only [hne, Bool.false_eq_true, if_false]

/-- C7: `research` ranks the deduplicated findings by `relevance_score`
descending with a stable sort — equal-score findings keep their merge
order (so ∀ s, filtering the ranking at score s gives the original
subsequence) — and selects exactly the first `top_pages_to_fetch` entries
of that ranking for content fetch. -/
theorem research_ranking_stable (l : List ResearchFinding) (top_n : Nat) :
    selectTop l top_n = (sortDesc l).take top_n ∧
    List.Perm (sortDesc l) l ∧
    (sortDesc l).Pairwise (fun x y => y.relevance_score ≤ x.relevance_score) ∧
    ∀ s : ℚ, (sortDesc l).filter (fun f => f.relevance_score == s) =
      l.filter (fun f => f.relevance_score == s) := by
  obtain ⟨hp, hperm, hfil⟩ := sortDesc_foldl_aux l [] (by simp)
  exact ⟨rfl, by simpa using hperm, hp, fun s => by simpa using hfil s⟩

/-! ## Search cache round trip (claim C10) -/

theorem findingOfJson_toJson (f : ResearchFinding) :
    findingOfJson (findingToJson f) = some f := by
  cases f with
  | mk t u sn fc sc => cases fc <;> rfl

theorem decodeList_map_toJson (fs : List ResearchFinding) :
    decodeList (fs.map findingToJson) = some fs := by
  induction fs with
  | nil => rfl
  | cons f fs ih => simp [decodeList, findingOfJson_toJson, ih]

theorem lookupCache_write (c : CacheState) (k : String) (v : JsonValue) :
    lookupCache (writeCache c k v) k = some v := by
  simp [lookupCache, writeCache, List.find?_cons_of_pos]

/-- C10: with `(provider, query)` not yet cached, a first `_search_cached`
call invokes the provider, returns the constructed findings and persists
them; a second call with the same provider and query returns a field-wise
equal findings list reconstructed from the cached artifact, without
invoking the provider and without touching the cache. -/
theorem search_cached_round_trip (c : CacheState) (p q : String)
    (rs rs2 : List SearchResult)
    (h : lookupCache c (cacheKeyFor p q) = none) :
    (_search_cached c p q rs).providerCalled = true ∧
    (_search_cached c p q rs).findings = .ok (mkFindings rs) ∧
    (_search_cached (_search_cached c p q rs).cache p q rs2).findings =
      .ok (mkFindings rs) ∧
    (_search_cached (_search_cached c p q rs).cache p q rs2).providerCalled = false ∧
    (_search_cached (_search_cached c p q rs).cache p q rs2).cache =
      (_search_cached c p q rs).cache := by
  have h1 : _search_cached c p q rs =
      ⟨.ok (mkFindings rs),
       writeCache c (cacheKeyFor p q) (.arr ((mkFindings rs).map findingToJson)),
       true⟩ := by
    simp [_search_cached, h]
  rw [h1]
  refine ⟨rfl, rfl, ?_, ?_, ?_⟩ <;>
    simp [_search_cached, lookupCache_write, decodeFindings, decodeList_map_toJson]

theorem search_cached_round_trip_witness :
    lookupCache ⟨[]⟩ (cacheKeyFor "google" "ai") = none ∧
    (_search_cached (_search_cached ⟨[]⟩ "google" "ai" [⟨"T", "http://u", "s", 0⟩]).cache
        "google" "ai" []).findings = .ok (mkFindings [⟨"T", "http://u", "s", 0⟩]) ∧
    (_search_cached (_search_cached ⟨[]⟩ "google" "ai" [⟨"T", "http://u", "s", 0⟩]).cache
        "google" "ai" []).providerCalled = false :=
  ⟨rfl,
   (search_cached_round_trip ⟨[]⟩ "google" "ai" [⟨"T", "http://u", "s", 0⟩] [] rfl).2.2.1,
   (search_cached_round_trip ⟨[]⟩ "google" "ai" [⟨"T", "http://u", "s", 0⟩] [] rfl).2.2.2.1⟩

/-! ## Script timeline (claims C2 and C5) -/

theorem parseSections_spec (wpm : ℚ) (raws : List JsonValue) :
    ∀ t ss total, parseSections wpm t raws = .ok (ss, total) →
      total = t + (ss.map (·.estimated_duration_seconds)).sum ∧
      (∀ i (hi : i < ss.length),
        (ss.get ⟨i, hi⟩).start_time =
          t + ((ss.take i).map (·.estimated_duration_seconds)).sum) ∧
      (∀ s ∈ ss, s.estimated_duration_seconds =
        ((countWords s.narration_text.data : ℚ) / wpm) * 60) := by
  induction raws with
  | nil =>
      intro t ss total h
      simp only [parseSections, Except.ok.injEq, Prod.mk.injEq] at h
      obtain ⟨h1, h2⟩ := h
      subst h1; subst h2
      refine ⟨by simp, ?_, by simp⟩
      intro i hi
      exact absurd hi (by simp)
  | cons raw rest ih =>
      intro t ss total h
      simp only [parseSections] at h
      split at h
      case _ fields =>
        split at h
        case _ narration heq1 =>
          split at h
          case _ sid heq2 =>
            split at h
            case _ ss' total' heq3 =>
              simp only [Except.ok.injEq, Prod.mk.injEq] at h
              obtain ⟨h1, h2⟩ := h
              subst h1; subst h2
              obtain ⟨ha, hb, hc⟩ := ih _ ss' total' heq3
              refine ⟨?_, ?_, ?_⟩
              · rw [ha]
                simp only [List.map_cons, List.sum_cons]
                ring
              · intro i hi
                match i with
                | 0 => simp
                | Nat.succ i =>
                    have hi' : i < ss'.length := by
                      simpa [Nat.succ_lt_succ_iff] using hi
                    have := hb i hi'
                    simp only [List.get_cons_succ, List.take_succ_cons,
                      List.map_cons, List.sum_cons]
                    rw [this]
                    ring
              · intro s hs
                rcases List.mem_cons.mp hs with rfl | hs
                · rfl
                · exact hc s hs
            case _ e heq3 => cases h
          case _ e heq2 => cases h
        case _ h2 => cases h
      case _ h2 => cases h

theorem sum_take_mono (d : List ℚ) (hd : ∀ x ∈ d, 0 ≤ x) (i j : Nat) (hij : i ≤ j) :
    (d.take i).sum ≤ (d.take j).sum := by
  have hj : d.take j = d.take i ++ (d.drop i).take (j - i) := by
    rw [← List.take_add]
    congr 1
    omega
  rw [hj, List.sum_append]
  have : 0 ≤ ((d.drop i).take (j - i)).sum := by
    apply List.sum_nonneg
    intro x hx
    exact hd x (List.mem_of_mem_drop (List.mem_of_mem_take hx))
  linarith

/-- C2: for every script `_parse` builds, each section's start time is the
sum of the estimated durations of the sections before it (the first starts
at 0, no gaps, no overlaps), `total_estimated_seconds` is the sum of all
section durations, and — the configured words-per-minute rate being
positive — start times are non-decreasing. -/
theorem script_timeline_invariant (wpm : ℚ) (topic : String) (data : JsonValue)
    (script : VideoScript) (h : _parse wpm topic data = .ok script) :
    (∀ i (hi : i < script.sections.length),
      (script.sections.get ⟨i, hi⟩).start_time =
        ((script.sections.take i).map (·.estimated_duration_seconds)).sum) ∧
    script.total_estimated_seconds =
      (script.sections.map (·.estimated_duration_seconds)).sum ∧
    (0 < wpm →
      ∀ i j (hi : i < script.sections.length) (hj : j < script.sections.length), i ≤ j →
        (script.sections.get ⟨i, hi⟩).start_time ≤
          (script.sections.get ⟨j, hj⟩).start_time) := by
  simp only [_parse] at h
  split at h
  case _ fields =>
    split at h
    case _ raws heq1 =>
      split at h
      case _ sections t heq2 =>
        simp only [Except.ok.injEq] at h
        subst h
        obtain ⟨ha, hb, hc⟩ := parseSections_spec wpm raws 0 sections t heq2
        simp only at ha hb hc ⊢
        refine ⟨?_, ?_, ?_⟩
        · intro i hi
          rw [hb i hi]
          ring
        · rw [ha]; ring
        · intro hwpm i j hi hj hij
          rw [hb i hi, hb j hj]
          have hnn : ∀ x ∈ sections.map (·.estimated_duration_seconds), (0:ℚ) ≤ x := by
            intro x hx
            obtain ⟨s, hs, rfl⟩ := List.mem_map.mp hx
            rw [hc s hs]
            have := (countWords s.narration_text.data : ℚ)
            apply mul_nonneg
            · exact div_nonneg (by positivity) (le_of_lt hwpm)
            · norm_num
          have := sum_take_mono (sections.map (·.estimated_duration_seconds)) hnn i j hij
          simpa [List.map_take] using this
      case _ e heq2 => cases h
    case _ h2 => cases h
  case _ h2 => cases h

theorem script_timeline_invariant_witness :
    _parse 150 "t" demoSectionsJson = .ok demoScript ∧
    demoScript.total_estimated_seconds =
      (demoScript.sections.map (·.estimated_duration_seconds)).sum ∧
    (demoScript.sections.get ⟨0, by decide⟩).start_time = 0 :=
  ⟨rfl, (script_timeline_invariant 150 "t" demoSectionsJson demoScript rfl).2.1, rfl⟩

theorem _parse_ok_elim (wpm : ℚ) (topic : String) (data : JsonValue) (script : VideoScript)
    (h : _parse wpm topic data = .ok script) :
    ∃ raws, parseSections wpm 0 raws =
      .ok (script.sections, script.total_estimated_seconds) := by
  simp only [_parse] at h
  split at h
  case _ fields =>
    split at h
    case _ raws heq1 =>
      split at h
      case _ sections t heq2 =>
        simp only [Except.ok.injEq] at h
        subst h
        exact ⟨raws, heq2⟩
      case _ e heq2 => cases h
    case _ h2 => cases h
  case _ h2 => cases h

/-- C5: every section's estimated duration is `(word count of the
cue-stripped, whitespace-collapsed narration / wordsPerMinute) * 60`
seconds, and a section with zero clean words has duration 0 and leaves the
running start time unchanged. -/
theorem section_duration_formula (wpm : ℚ) (topic : String) (data : JsonValue)
    (script : VideoScript) (h : _parse wpm topic data = .ok script) :
    ∀ i (hi : i < script.sections.length),
      (script.sections.get ⟨i, hi⟩).estimated_duration_seconds =
        ((countWords (script.sections.get ⟨i, hi⟩).narration_text.data : ℚ) / wpm) * 60 ∧
      (countWords (script.sections.get ⟨i, hi⟩).narration_text.data = 0 →
        (script.sections.get ⟨i, hi⟩).estimated_duration_seconds = 0 ∧
        ∀ hj : i + 1 < script.sections.length,
          (script.sections.get ⟨i + 1, hj⟩).start_time =
            (script.sections.get ⟨i, hi⟩).start_time) := by
  obtain ⟨raws, heq⟩ := _parse_ok_elim wpm topic data script h
  obtain ⟨ha, hb, hc⟩ := parseSections_spec wpm raws 0 _ _ heq
  intro i hi
  have hdur := hc _ (script.sections.get_mem i hi)
  refine ⟨hdur, ?_⟩
  intro h0
  have hz : (script.sections.get ⟨i, hi⟩).estimated_duration_seconds = 0 := by
    rw [hdur, h0]
    simp
  refine ⟨hz, ?_⟩
  intro hj
  rw [hb i hi, hb (i + 1) hj]
  have hlen : i < (script.sections.map (·.estimated_duration_seconds)).length := by
    simpa using hi
  have hsum := List.sum_take_succ
    (script.sections.map (·.estimated_duration_seconds)) i hlen
  rw [← List.map_take, ← List.map_take] at hsum
  rw [hsum]
  simp only [List.get_eq_getElem] at hz
  simp [List.getElem_map, hz]

theorem section_duration_formula_witness :
    _parse 150 "t" demoSectionsJson = .ok demoScript ∧
    countWords (demoScript.sections.get ⟨0, by decide⟩).narration_text.data = 4 ∧
    (demoScript.sections.get ⟨0, by decide⟩).estimated_duration_seconds =
      ((countWords (demoScript.sections.get ⟨0, by decide⟩).narration_text.data : ℚ) / 150) * 60 ∧
    (demoScript.sections.get ⟨0, by decide⟩).estimated_duration_seconds = 8 / 5 := by
  refine ⟨rfl, rfl,
    (section_duration_formula 150 "t" demoSectionsJson demoScript rfl 0 (by decide)).1, ?_⟩
  show demoDur = 8 / 5
  have h4 : countWords demoClean = 4 := rfl
  simp only [demoDur, h4]
  norm_num

/-! ## Marker extraction (claim C4) -/

theorem dropLit_append (p l : List Char) : dropLit p (p ++ l) = some l := by
  induction p with
  | nil => rfl
  | cons c cs ih => simp [dropLit, ih]

theorem dropLit_eq_append (p : List Char) :
    ∀ {l r : List Char}, dropLit p l = some r → l = p ++ r := by
  induction p with
  | nil =>
      intro l r h
      simp only [dropLit, Option.some.injEq] at h
      simp [h]
  | cons c cs ih =>
      intro l r h
      cases l with
      | nil => cases h
      | cons d ds =>
          simp only [dropLit] at h
          split at h
          case _ hcd => rw [List.cons_append, ← ih h, hcd]
          case _ => cases h

theorem splitAtRB_append (a b : List Char) (h : ∀ c ∈ a, c ≠ ']') :
    splitAtRB (a ++ ']' :: b) = some (a, b) := by
  induction a with
  | nil => simp [splitAtRB]
  | cons c cs ih =>
      have hc : c ≠ ']' := h c (List.mem_cons_self c cs)
      simp only [List.cons_append, splitAtRB, if_neg hc, List.append_eq]
      rw [ih (fun x hx => h x (List.mem_cons_of_mem c hx))]

theorem splitAtRB_parts : ∀ {l a b : List Char}, splitAtRB l = some (a, b) →
    l = a ++ ']' :: b := by
  intro l
  induction l with
  | nil => intro a b h; cases h
  | cons c cs ih =>
      intro a b h
      simp only [splitAtRB] at h
      split at h
      case _ hc =>
        simp only [Option.some.injEq, Prod.mk.injEq] at h
        obtain ⟨h1, h2⟩ := h
        subst h1; subst h2
        simp [hc]
      case _ hc =>
        split at h
        case _ a' b' heq =>
          simp only [Option.some.injEq, Prod.mk.injEq] at h
          obtain ⟨h1, h2⟩ := h
          subst h1; subst h2
          simpa using ih heq
        case _ => cases h

theorem dropWhile_append_all (p : Char → Bool) (ws : List Char)
    (h : ∀ c ∈ ws, p c = true) :
    ∀ l, (ws ++ l).dropWhile p = l.dropWhile p := by
  induction ws with
  | nil => intro l; rfl
  | cons c cs ih =>
      intro l
      simp only [List.cons_append, List.dropWhile_cons, h c (List.mem_cons_self c cs), if_pos]
      exact ih (fun x hx => h x (List.mem_cons_of_mem c hx)) l

theorem dropLit_length {p l r : List Char} (h : dropLit p l = some r) :
    r.length ≤ l.length := by
  rw [dropLit_eq_append p h]
  simp

theorem splitAtRB_length {l a b : List Char} (h : splitAtRB l = some (a, b)) :
    b.length < l.length := by
  rw [splitAtRB_parts h]
  simp only [List.length_append, List.length_cons]
  omega

theorem length_dropWhile_le (p : Char → Bool) (l : List Char) :
    (l.dropWhile p).length ≤ l.length := by
  induction l with
  | nil => simp
  | cons c cs ih =>
      rw [List.dropWhile_cons]
      split
      · exact le_trans ih (by simp)
      · simp

theorem matchScreenshot_length : ∀ {l cap rest : List Char},
    matchScreenshot l = some (cap, rest) → rest.length < l.length := by
  intro l cap rest h
  simp only [matchScreenshot] at h
  split at h
  case _ => cases h
  case _ r1 heq1 =>
    split at h
    case _ => cases h
    case _ r3 heq2 =>
      split at h
      case _ => cases h
      case _ r4 heq3 =>
        split at h
        case _ span rest' heq4 =>
          split at h
          case _ => cases h
          case _ hspan =>
            simp only [Option.some.injEq, Prod.mk.injEq] at h
            obtain ⟨h1, h2⟩ := h
            rw [← h2]
            have e2 : rest'.length < r4.length := splitAtRB_length heq4
            have e3 : r4.length ≤ r3.length + 1 := by
              revert heq3
              split
              case _ r5 heq5 =>
                intro heq3
                have g1 : r3 = ['s'] ++ r5 := dropLit_eq_append _ heq5
                have g2 : r4.length ≤ r5.length := by
                  simpa using dropLit_length heq3
                rw [g1]
                simp only [List.length_append, List.length_cons, List.length_nil]
                omega
              case _ =>
                intro heq3
                have g2 : r4.length ≤ r3.length := by
                  simpa using dropLit_length heq3
                omega
            have e4 : r3.length + "http".data.length =
                (r1.dropWhile isSpaceChar).length := by
              have := dropLit_eq_append _ heq2
              rw [this]
              simp
            have e5 : (r1.dropWhile isSpaceChar).length ≤ r1.length :=
              length_dropWhile_le _ _
            have e6 : l = "[SCREENSHOT:".data ++ r1 := dropLit_eq_append _ heq1
            have e7 : l.length = 12 + r1.length := by
              rw [e6]
              simp only [List.length_append, List.length_cons, List.length_nil]
            simp only [show "http".data.length = 4 from rfl] at e4
            omega
        case _ => cases h

theorem matchVisual_length : ∀ {l span rest : List Char},
    matchVisual l = some (span, rest) → rest.length < l.length := by
  intro l span rest h
  simp only [matchVisual] at h
  split at h
  case _ => cases h
  case _ r1 heq1 =>
    split at h
    case _ a b heq2 =>
      split at h
      case _ => cases h
      case _ =>
        simp only [Option.some.injEq, Prod.mk.injEq] at h
        obtain ⟨h1, h2⟩ := h
        subst h2
        have e1 := splitAtRB_length heq2
        have e2 := dropLit_length heq1
        omega
    case _ => cases h

theorem matchCueSpan_length : ∀ {l rest : List Char},
    matchCueSpan l = some rest → rest.length < l.length := by
  intro l rest h
  simp only [matchCueSpan] at h
  split at h
  case _ r1 heq1 =>
    simp only [Option.map_eq_some'] at h
    obtain ⟨p, heq2, h2⟩ := h
    rw [← h2]
    have e1 : p.2.length < r1.length := splitAtRB_length heq2
    have e2 := dropLit_length heq1
    omega
  case _ =>
    split at h
    case _ r1 heq1 =>
      simp only [Option.map_eq_some'] at h
      obtain ⟨p, heq2, h2⟩ := h
      rw [← h2]
      have e1 : p.2.length < r1.length := splitAtRB_length heq2
      have e2 := dropLit_length heq1
      omega
    case _ => cases h

theorem scanScreens_fuel : ∀ (f1 f2 : Nat) (l : List Char), l.length ≤ f1 → l.length ≤ f2 →
    scanScreens f1 l = scanScreens f2 l := by
  intro f1
  induction f1 with
  | zero =>
      intro f2 l h1 h2
      have : l = [] := List.length_eq_zero.mp (Nat.le_zero.mp h1)
      subst this
      cases f2 <;> rfl
  | succ f ih =>
      intro f2 l h1 h2
      cases l with
      | nil => cases f2 <;> rfl
      | cons c cs =>
          simp only [List.length_cons] at h1 h2
          cases f2 with
          | zero => omega
          | succ f2' =>
              cases hm : matchScreenshot (c :: cs) with
              | none =>
                  simp only [scanScreens, hm]
                  exact ih f2' cs (by omega) (by omega)
              | some pr =>
                  obtain ⟨cap, rest⟩ := pr
                  have hr := matchScreenshot_length hm
                  simp only [List.length_cons] at hr
                  simp only [scanScreens, hm]
                  rw [ih f2' rest (by omega) (by omega)]

theorem scanVisuals_fuel : ∀ (f1 f2 : Nat) (l : List Char), l.length ≤ f1 → l.length ≤ f2 →
    scanVisuals f1 l = scanVisuals f2 l := by
  intro f1
  induction f1 with
  | zero =>
      intro f2 l h1 h2
      have : l = [] := List.length_eq_zero.mp (Nat.le_zero.mp h1)
      subst this
      cases f2 <;> rfl
  | succ f ih =>
      intro f2 l h1 h2
      cases l with
      | nil => cases f2 <;> rfl
      | cons c cs =>
          simp only [List.length_cons] at h1 h2
          cases f2 with
          | zero => omega
          | succ f2' =>
              cases hm : matchVisual (c :: cs) with
              | none =>
                  simp only [scanVisuals, hm]
                  exact ih f2' cs (by omega) (by omega)
              | some pr =>
                  obtain ⟨span, rest⟩ := pr
                  have hr := matchVisual_length hm
                  simp only [List.length_cons] at hr
                  simp only [scanVisuals, hm]
                  rw [ih f2' rest (by omega) (by omega)]

theorem scanStrip_fuel : ∀ (f1 f2 : Nat) (l : List Char), l.length ≤ f1 → l.length ≤ f2 →
    scanStrip f1 l = scanStrip f2 l := by
  intro f1
  induction f1 with
  | zero =>
      intro f2 l h1 h2
      have : l = [] := List.length_eq_zero.mp (Nat.le_zero.mp h1)
      subst this
      cases f2 <;> rfl
  | succ f ih =>
      intro f2 l h1 h2
      cases l with
      | nil => cases f2 <;> rfl
      | cons c cs =>
          simp only [List.length_cons] at h1 h2
          cases f2 with
          | zero => omega
          | succ f2' =>
              cases hm : matchCueSpan (c :: cs) with
              | none =>
                  simp only [scanStrip, hm]
                  rw [ih f2' cs (by omega) (by omega)]
              | some rest =>
                  have hr := matchCueSpan_length hm
                  simp only [List.length_cons] at hr
                  simp only [scanStrip, hm]
                  exact ih f2' rest (by omega) (by omega)

theorem findScreenshots_cons_some {c : Char} {cs cap rest : List Char}
    (h : matchScreenshot (c :: cs) = some (cap, rest)) :
    findScreenshots (c :: cs) = cap :: findScreenshots rest := by
  have hr := matchScreenshot_length h
  simp only [List.length_cons] at hr
  show scanScreens (c :: cs).length (c :: cs) = _
  simp only [List.length_cons, scanScreens, h]
  rw [scanScreens_fuel cs.length rest.length rest (by omega) (le_refl _)]
  rfl

theorem findScreenshots_cons_none {c : Char} {cs : List Char}
    (h : matchScreenshot (c :: cs) = none) :
    findScreenshots (c :: cs) = findScreenshots cs := by
  show scanScreens (c :: cs).length (c :: cs) = _
  simp only [List.length_cons, scanScreens, h]
  rfl

theorem findVisuals_cons_some {c : Char} {cs span rest : List Char}
    (h : matchVisual (c :: cs) = some (span, rest)) :
    findVisuals (c :: cs) = span :: findVisuals rest := by
  have hr := matchVisual_length h
  simp only [List.length_cons] at hr
  show scanVisuals (c :: cs).length (c :: cs) = _
  simp only [List.length_cons, scanVisuals, h]
  rw [scanVisuals_fuel cs.length rest.length rest (by omega) (le_refl _)]
  rfl

theorem findVisuals_cons_none {c : Char} {cs : List Char}
    (h : matchVisual (c :: cs) = none) :
    findVisuals (c :: cs) = findVisuals cs := by
  show scanVisuals (c :: cs).length (c :: cs) = _
  simp only [List.length_cons, scanVisuals, h]
  rfl

theorem stripCues_cons_some {c : Char} {cs rest : List Char}
    (h : matchCueSpan (c :: cs) = some rest) :
    stripCues (c :: cs) = stripCues rest := by
  have hr := matchCueSpan_length h
  simp only [List.length_cons] at hr
  show scanStrip (c :: cs).length (c :: cs) = _
  simp only [List.length_cons, scanStrip, h]
  rw [scanStrip_fuel cs.length rest.length rest (by omega) (le_refl _)]
  rfl

theorem stripCues_cons_none {c : Char} {cs : List Char}
    (h : matchCueSpan (c :: cs) = none) :
    stripCues (c :: cs) = c :: stripCues cs := by
  show scanStrip (c :: cs).length (c :: cs) = _
  simp only [List.length_cons, scanStrip, h]
  rfl

theorem matchScreenshot_head {c : Char} {l : List Char} (h : c ≠ '[') :
    matchScreenshot (c :: l) = none := by
  have hc : ('[' = c) = False := by simp [eq_comm, h]
  simp [matchScreenshot, dropLit, hc]

theorem matchVisual_head {c : Char} {l : List Char} (h : c ≠ '[') :
    matchVisual (c :: l) = none := by
  have hc : ('[' = c) = False := by simp [eq_comm, h]
  simp [matchVisual, dropLit, hc]

theorem matchCueSpan_head {c : Char} {l : List Char} (h : c ≠ '[') :
    matchCueSpan (c :: l) = none := by
  have hc : ('[' = c) = False := by simp [eq_comm, h]
  simp [matchCueSpan, dropLit, hc]

theorem findScreenshots_text (t r : List Char) (h : ∀ c ∈ t, c ≠ '[') :
    findScreenshots (t ++ r) = findScreenshots r := by
  induction t with
  | nil => rfl
  | cons c cs ih =>
      rw [List.cons_append,
        findScreenshots_cons_none (matchScreenshot_head (h c (List.mem_cons_self c cs)))]
      exact ih (fun x hx => h x (List.mem_cons_of_mem c hx))

theorem findVisuals_text (t r : List Char) (h : ∀ c ∈ t, c ≠ '[') :
    findVisuals (t ++ r) = findVisuals r := by
  induction t with
  | nil => rfl
  | cons c cs ih =>
      rw [List.cons_append,
        findVisuals_cons_none (matchVisual_head (h c (List.mem_cons_self c cs)))]
      exact ih (fun x hx => h x (List.mem_cons_of_mem c hx))

theorem stripCues_text (t r : List Char) (h : ∀ c ∈ t, c ≠ '[') :
    stripCues (t ++ r) = t ++ stripCues r := by
  induction t with
  | nil => rfl
  | cons c cs ih =>
      rw [List.cons_append,
        stripCues_cons_none (matchCueSpan_head (h c (List.mem_cons_self c cs))),
        ih (fun x hx => h x (List.mem_cons_of_mem c hx)), List.cons_append]

theorem isSpaceChar_ne_rbrack {c : Char} (h : isSpaceChar c = true) : c ≠ ']' := by
  intro e
  subst e
  simp [isSpaceChar] at h

theorem isSpaceChar_ne_lbrack {c : Char} (h : isSpaceChar c = true) : c ≠ '[' := by
  intro e
  subst e
  simp [isSpaceChar] at h

theorem protoChars_ne (sec : Bool) : ∀ c ∈ protoChars sec, c ≠ ']' ∧ c ≠ '[' := by
  cases sec <;> decide

theorem isEmpty_false_of_ne_nil {l : List Char} (h : l ≠ []) : l.isEmpty = false := by
  cases l with
  | nil => exact absurd rfl h
  | cons c cs => rfl

theorem matchScreenshot_shot (sec : Bool) (ws span r : List Char)
    (h : (CueSpec.shot sec ws span).wf) :
    matchScreenshot ((CueSpec.shot sec ws span).render ++ r) =
      some (protoChars sec ++ span, r) := by
  obtain ⟨hws, hne, hsp⟩ := h
  have hsplit : splitAtRB (span ++ ']' :: r) = some (span, r) :=
    splitAtRB_append span r (fun c hc => (hsp c hc).1)
  have hempty : span.isEmpty = false := isEmpty_false_of_ne_nil hne
  have h1 : (CueSpec.shot sec ws span).render ++ r =
      "[SCREENSHOT:".data ++ (ws ++ (protoChars sec ++ (span ++ (']' :: r)))) := by
    simp [CueSpec.render]
  rw [h1]
  simp only [matchScreenshot, dropLit_append,
    dropWhile_append_all isSpaceChar ws hws]
  cases sec <;>
    simp [protoChars, dropLit, List.dropWhile_cons, isSpaceChar, hsplit, hempty]

theorem matchScreenshot_vis (span r : List Char) :
    matchScreenshot ((CueSpec.vis span).render ++ r) = none := by
  simp [matchScreenshot, CueSpec.render, dropLit]

theorem matchVisual_vis (span r : List Char) (h : (CueSpec.vis span).wf) :
    matchVisual ((CueSpec.vis span).render ++ r) = some (span, r) := by
  obtain ⟨hne, hsp⟩ := h
  have hsplit : splitAtRB (span ++ ']' :: r) = some (span, r) :=
    splitAtRB_append span r (fun c hc => (hsp c hc).1)
  have hempty : span.isEmpty = false := isEmpty_false_of_ne_nil hne
  have h1 : (CueSpec.vis span).render ++ r =
      "[VISUAL:".data ++ (span ++ (']' :: r)) := by
    simp [CueSpec.render]
  rw [h1]
  simp [matchVisual, dropLit, dropLit_append, hsplit, hempty, hne]

theorem matchVisual_shot (sec : Bool) (ws span r : List Char) :
    matchVisual ((CueSpec.shot sec ws span).render ++ r) = none := by
  simp [matchVisual, CueSpec.render, dropLit]

theorem matchCueSpan_shot (sec : Bool) (ws span r : List Char)
    (h : (CueSpec.shot sec ws span).wf) :
    matchCueSpan ((CueSpec.shot sec ws span).render ++ r) = some r := by
  obtain ⟨hws, hne, hsp⟩ := h
  have hnb : ∀ c ∈ ws ++ (protoChars sec ++ span), c ≠ ']' := by
    intro c hc
    rcases List.mem_append.mp hc with hc | hc
    · exact isSpaceChar_ne_rbrack (hws c hc)
    · rcases List.mem_append.mp hc with hc | hc
      · exact (protoChars_ne sec c hc).1
      · exact (hsp c hc).1
  have hsplit := splitAtRB_append (ws ++ (protoChars sec ++ span)) r hnb
  simp only [List.append_assoc] at hsplit
  have h1 : (CueSpec.shot sec ws span).render ++ r =
      "[SCREENSHOT:".data ++ (ws ++ (protoChars sec ++ (span ++ (']' :: r)))) := by
    simp [CueSpec.render]
  rw [h1]
  simp [matchCueSpan, dropLit, dropLit_append, hsplit]

theorem matchCueSpan_vis (span r : List Char) (h : (CueSpec.vis span).wf) :
    matchCueSpan ((CueSpec.vis span).render ++ r) = some r := by
  obtain ⟨hne, hsp⟩ := h
  have hsplit : splitAtRB (span ++ ']' :: r) = some (span, r) :=
    splitAtRB_append span r (fun c hc => (hsp c hc).1)
  have h1 : (CueSpec.vis span).render ++ r =
      "[VISUAL:".data ++ (span ++ (']' :: r)) := by
    simp [CueSpec.render]
  rw [h1]
  simp [matchCueSpan, dropLit, dropLit_append, hsplit]

theorem vis_interior (span : List Char) (hsp : ∀ c ∈ span, c ≠ ']' ∧ c ≠ '[') :
    ∀ c ∈ "VISUAL:".data ++ (span ++ [']']), c ≠ '[' := by
  have hlit : ∀ c ∈ "VISUAL:".data, c ≠ '[' := by decide
  intro c hc
  rcases List.mem_append.mp hc with hc | hc
  · exact hlit c hc
  · rcases List.mem_append.mp hc with hc | hc
    · exact (hsp c hc).2
    · rcases List.mem_singleton.mp hc with rfl
      decide

theorem shot_interior (sec : Bool) (ws span : List Char)
    (hws : ∀ c ∈ ws, isSpaceChar c = true) (hsp : ∀ c ∈ span, c ≠ ']' ∧ c ≠ '[') :
    ∀ c ∈ "SCREENSHOT:".data ++ (ws ++ (protoChars sec ++ (span ++ [']']))), c ≠ '[' := by
  have hlit : ∀ c ∈ "SCREENSHOT:".data, c ≠ '[' := by decide
  intro c hc
  rcases List.mem_append.mp hc with hc | hc
  · exact hlit c hc
  · rcases List.mem_append.mp hc with hc | hc
    · exact isSpaceChar_ne_lbrack (hws c hc)
    · rcases List.mem_append.mp hc with hc | hc
      · exact (protoChars_ne sec c hc).2
      · rcases List.mem_append.mp hc with hc | hc
        · exact (hsp c hc).2
        · rcases List.mem_singleton.mp hc with rfl
          decide

theorem findScreenshots_shot_cue (sec : Bool) (ws span r : List Char)
    (h : (CueSpec.shot sec ws span).wf) :
    findScreenshots ((CueSpec.shot sec ws span).render ++ r) =
      (protoChars sec ++ span) :: findScreenshots r := by
  have hm := matchScreenshot_shot sec ws span r h
  have h1 : (CueSpec.shot sec ws span).render ++ r =
      '[' :: ("SCREENSHOT:".data ++ (ws ++ (protoChars sec ++ (span ++ (']' :: r))))) := by
    simp [CueSpec.render]
  rw [h1] at hm
  rw [h1, findScreenshots_cons_some hm]

theorem findScreenshots_vis_cue (span r : List Char) (h : (CueSpec.vis span).wf) :
    findScreenshots ((CueSpec.vis span).render ++ r) = findScreenshots r := by
  obtain ⟨hne, hsp⟩ := h
  have hm := matchScreenshot_vis span r
  have h1 : (CueSpec.vis span).render ++ r =
      '[' :: (("VISUAL:".data ++ (span ++ [']'])) ++ r) := by
    simp [CueSpec.render]
  rw [h1] at hm
  rw [h1, findScreenshots_cons_none hm, findScreenshots_text _ r (vis_interior span hsp)]

theorem findVisuals_vis_cue (span r : List Char) (h : (CueSpec.vis span).wf) :
    findVisuals ((CueSpec.vis span).render ++ r) = span :: findVisuals r := by
  have hm := matchVisual_vis span r h
  have h1 : (CueSpec.vis span).render ++ r =
      '[' :: ("VISUAL:".data ++ (span ++ (']' :: r))) := by
    simp [CueSpec.render]
  rw [h1] at hm
  rw [h1, findVisuals_cons_some hm]

theorem findVisuals_shot_cue (sec : Bool) (ws span r : List Char)
    (h : (CueSpec.shot sec ws span).wf) :
    findVisuals ((CueSpec.shot sec ws span).render ++ r) = findVisuals r := by
  obtain ⟨hws, hne, hsp⟩ := h
  have hm := matchVisual_shot sec ws span r
  have h1 : (CueSpec.shot sec ws span).render ++ r =
      '[' :: (("SCREENSHOT:".data ++ (ws ++ (protoChars sec ++ (span ++ [']'])))) ++ r) := by
    simp [CueSpec.render]
  rw [h1] at hm
  rw [h1, findVisuals_cons_none hm, findVisuals_text _ r (shot_interior sec ws span hws hsp)]

theorem stripCues_shot_cue (sec : Bool) (ws span r : List Char)
    (h : (CueSpec.shot sec ws span).wf) :
    stripCues ((CueSpec.shot sec ws span).render ++ r) = stripCues r := by
  have hm := matchCueSpan_shot sec ws span r h
  have h1 : (CueSpec.shot sec ws span).render ++ r =
      '[' :: ("SCREENSHOT:".data ++ (ws ++ (protoChars sec ++ (span ++ (']' :: r))))) := by
    simp [CueSpec.render]
  rw [h1] at hm
  rw [h1, stripCues_cons_some hm]

theorem stripCues_vis_cue (span r : List Char) (h : (CueSpec.vis span).wf) :
    stripCues ((CueSpec.vis span).render ++ r) = stripCues r := by
  have hm := matchCueSpan_vis span r h
  have h1 : (CueSpec.vis span).render ++ r =
      '[' :: ("VISUAL:".data ++ (span ++ (']' :: r))) := by
    simp [CueSpec.render]
  rw [h1] at hm
  rw [h1, stripCues_cons_some hm]

theorem findScreenshots_all_text (t : List Char) (h : ∀ c ∈ t, c ≠ '[') :
    findScreenshots t = [] := by
  have h0 := findScreenshots_text t [] h
  rw [List.append_nil] at h0
  exact h0.trans rfl

theorem findVisuals_all_text (t : List Char) (h : ∀ c ∈ t, c ≠ '[') :
    findVisuals t = [] := by
  have h0 := findVisuals_text t [] h
  rw [List.append_nil] at h0
  exact h0.trans rfl

theorem stripCues_all_text (t : List Char) (h : ∀ c ∈ t, c ≠ '[') :
    stripCues t = t := by
  have h0 := stripCues_text t [] h
  rw [List.append_nil] at h0
  rw [h0, show stripCues [] = [] from rfl, List.append_nil]

theorem findScreenshots_renderParts (parts : List (List Char × CueSpec)) :
    ∀ tail, PartsWF parts tail →
      findScreenshots (renderParts parts tail) =
        parts.filterMap (fun p => p.2.shotCapture) := by
  induction parts with
  | nil =>
      intro tail h
      exact (findScreenshots_all_text tail h.2).trans rfl
  | cons p ps ih =>
      intro tail h
      obtain ⟨t, cue⟩ := p
      obtain ⟨hall, htail⟩ := h
      have hp := hall (t, cue) (List.mem_cons_self _ _)
      rw [renderParts, List.append_assoc, findScreenshots_text t _ hp.1]
      cases cue with
      | shot sec ws span =>
          rw [findScreenshots_shot_cue sec ws span _ hp.2,
            ih tail ⟨fun q hq => hall q (List.mem_cons_of_mem _ hq), htail⟩]
          simp [CueSpec.shotCapture, List.filterMap_cons]
      | vis span =>
          rw [findScreenshots_vis_cue span _ hp.2,
            ih tail ⟨fun q hq => hall q (List.mem_cons_of_mem _ hq), htail⟩]
          simp [CueSpec.shotCapture, List.filterMap_cons]

theorem findVisuals_renderParts (parts : List (List Char × CueSpec)) :
    ∀ tail, PartsWF parts tail →
      findVisuals (renderParts parts tail) =
        parts.filterMap (fun p => p.2.visSpan) := by
  induction parts with
  | nil =>
      intro tail h
      exact (findVisuals_all_text tail h.2).trans rfl
  | cons p ps ih =>
      intro tail h
      obtain ⟨t, cue⟩ := p
      obtain ⟨hall, htail⟩ := h
      have hp := hall (t, cue) (List.mem_cons_self _ _)
      rw [renderParts, List.append_assoc, findVisuals_text t _ hp.1]
      cases cue with
      | shot sec ws span =>
          rw [findVisuals_shot_cue sec ws span _ hp.2,
            ih tail ⟨fun q hq => hall q (List.mem_cons_of_mem _ hq), htail⟩]
          simp [CueSpec.visSpan, List.filterMap_cons]
      | vis span =>
          rw [findVisuals_vis_cue span _ hp.2,
            ih tail ⟨fun q hq => hall q (List.mem_cons_of_mem _ hq), htail⟩]
          simp [CueSpec.visSpan, List.filterMap_cons]

theorem stripCues_renderParts (parts : List (List Char × CueSpec)) :
    ∀ tail, PartsWF parts tail →
      stripCues (renderParts parts tail) = cueTexts parts tail := by
  induction parts with
  | nil =>
      intro tail h
      exact stripCues_all_text tail h.2
  | cons p ps ih =>
      intro tail h
      obtain ⟨t, cue⟩ := p
      obtain ⟨hall, htail⟩ := h
      have hp := hall (t, cue) (List.mem_cons_self _ _)
      rw [renderParts, List.append_assoc, stripCues_text t _ hp.1, cueTexts]
      cases cue with
      | shot sec ws span =>
          rw [stripCues_shot_cue sec ws span _ hp.2,
            ih tail ⟨fun q hq => hall q (List.mem_cons_of_mem _ hq), htail⟩]
      | vis span =>
          rw [stripCues_vis_cue span _ hp.2,
            ih tail ⟨fun q hq => hall q (List.mem_cons_of_mem _ hq), htail⟩]

/-- C4 counterexample: in the narration
`"[VISUAL: a] text [SCREENSHOT: http://b]"` the visual cue appears strictly
before the screenshot cue, yet `_extract_markers` lists the screenshot
marker first (all SCREENSHOT matches are collected before all VISUAL
matches), so the marker list is not ordered by order of appearance in the
narration text. -/
theorem extract_markers_order_counterexample :
    ((_extract_markers "[VISUAL: a] text [SCREENSHOT: http://b]".data (.str "s")).1.map
      (·.marker_type)) = ["screenshot", "visual"] ∧
    ((markersInAppearanceOrder "[VISUAL: a] text [SCREENSHOT: http://b]".data (.str "s")).map
      (·.marker_type)) = ["visual", "screenshot"] ∧
    ((_extract_markers "[VISUAL: a] text [SCREENSHOT: http://b]".data (.str "s")).1.map
      (·.marker_type)) ≠
      ((markersInAppearanceOrder "[VISUAL: a] text [SCREENSHOT: http://b]".data (.str "s")).map
        (·.marker_type)) :=
  ⟨rfl, rfl, by decide⟩

/-- C4 amended: `_extract_markers` groups the markers by type — all
screenshot markers in their order of appearance, then all visual markers in
theirs — rather than interleaving them in order of appearance; and on any
narration assembled from cue-free text pieces and well-formed cues, the
extraction is a lossless partition up to that grouping and whitespace
normalization: the markers carry exactly the cues' payloads (stripped) and
the clean text is exactly the concatenated non-cue content,
whitespace-collapsed and trimmed. -/
theorem extract_markers_partition (parts : List (List Char × CueSpec)) (tail : List Char)
    (sid : JsonValue) (h : PartsWF parts tail) :
    (_extract_markers (renderParts parts tail) sid).1 =
      (parts.filterMap (fun p => p.2.shotCapture)).map (fun cap =>
        { marker_type := "screenshot", url := some (stripChars cap).asString
          section_id := sid }) ++
      (parts.filterMap (fun p => p.2.visSpan)).map (fun span =>
        { marker_type := "visual", description := some (stripChars span).asString
          section_id := sid }) ∧
    (_extract_markers (renderParts parts tail) sid).2 =
      stripChars (collapseWS (cueTexts parts tail)) := by
  simp only [_extract_markers]
  rw [findScreenshots_renderParts parts tail h, findVisuals_renderParts parts tail h,
    stripCues_renderParts parts tail h]
  exact ⟨rfl, rfl⟩

theorem extract_markers_partition_witness :
    PartsWF demoParts [] ∧
    renderParts demoParts [] = "[VISUAL: a] text [SCREENSHOT: http://b]".data ∧
    (_extract_markers (renderParts demoParts []) (.str "s")).2 =
      stripChars (collapseWS (cueTexts demoParts [])) ∧
    (_extract_markers (renderParts demoParts []) (.str "s")).2.asString = "text" :=
  ⟨by decide, by decide,
   (extract_markers_partition demoParts [] (.str "s") (by decide)).2, rfl⟩

end AVG
